import Mathlib

/-!
Verification of the result-serialization (output merge) subsystem of SU2,
declared in `SU2_CFD/include/output_structure.hpp` (class `COutput`).

Only the header is available; the bodies of the member functions live in
`output_structure.cpp`, which is not part of the source tree here.  The
definitions below therefore model the merge engine from the specification:
each such definition carries a doc comment starting `Modelled from the
spec:` naming the missing function.  Field values and coordinates are
modelled over exact integers (the spec's round-trip and merge contracts
are stated at value level).
-/

namespace SU2

/-- Modelled from the spec: a local node held by one partition — its shared
global identifier, whether this partition owns it (halo copies are not
owned), its position, and its per-node solution field tuple. -/
structure LocalNode where
  gid : Nat
  owned : Bool
  coords : List Int
  fields : List Int
deriving DecidableEq, Repr

/-- Modelled from the spec: the closed set of element topologies
(line, triangle, quad, tetrahedron, hexahedron, wedge, pyramid). -/
inductive ElemType where
  | line | tria | quad | tetr | hexa | wedg | pyra
deriving DecidableEq, Repr

/-- Modelled from the spec: the fixed node-arity of each element type
(2/3/4/4/8/6/5). -/
def ElemType.nNodes : ElemType → Nat
  | .line => 2
  | .tria => 3
  | .quad => 4
  | .tetr => 4
  | .hexa => 8
  | .wedg => 6
  | .pyra => 5

/-- Modelled from the spec: one worker's slice of the domain — its local
node list (including halo copies) and, per element type, its local element
connectivity referencing local node indices. -/
structure Partition where
  nodes : List LocalNode
  connLine : List (List Nat)
  connTria : List (List Nat)
  connQuad : List (List Nat)
  connTetr : List (List Nat)
  connHexa : List (List Nat)
  connWedg : List (List Nat)
  connPyra : List (List Nat)
deriving DecidableEq, Repr

/-- The per-type local connectivity of a partition. -/
def Partition.conn (p : Partition) : ElemType → List (List Nat)
  | .line => p.connLine
  | .tria => p.connTria
  | .quad => p.connQuad
  | .tetr => p.connTetr
  | .hexa => p.connHexa
  | .wedg => p.connWedg
  | .pyra => p.connPyra

/-- Modelled from the spec: a merged global node — its global identifier,
position, and the diagnostic back-reference to the owning partition rank
and the local index within that partition. -/
structure GlobalNode where
  gid : Nat
  coords : List Int
  ownerRank : Nat
  ownerLocal : Nat
deriving DecidableEq, Repr

/-- The domain-owned local nodes of a partition list, in the stable merge
order: owning-partition rank first, local index within the partition second. -/
def ownedList (parts : List Partition) : List LocalNode :=
  parts.flatMap (fun p => p.nodes.filter (fun n => n.owned))

/-- The owned nodes of one partition turned into global nodes, recording
rank `r` and successive local indices starting at `j`. -/
def ownedGlobals : List LocalNode → Nat → Nat → List GlobalNode
  | [], _, _ => []
  | n :: rest, r, j =>
    if n.owned then
      ⟨n.gid, n.coords, r, j⟩ :: ownedGlobals rest r (j + 1)
    else
      ownedGlobals rest r (j + 1)

/-- Helper for `MergeCoordinates`: walk the partitions in rank order. -/
def mergeCoordinatesAux : List Partition → Nat → List GlobalNode
  | [], _ => []
  | p :: ps, r => ownedGlobals p.nodes r 0 ++ mergeCoordinatesAux ps (r + 1)

/-- Modelled from the spec: `COutput::MergeCoordinates` — a single pass over
the partitions in rank order assigns global indices to domain-owned nodes
in the stable order (owning-partition rank, local index); halo copies do
not create global nodes. -/
def MergeCoordinates (parts : List Partition) : List GlobalNode :=
  mergeCoordinatesAux parts 0

/-- Modelled from the spec: the identifier lookup used to resolve a global
identifier to its already-assigned global index in the merged node table. -/
def globalIndexOf (table : List GlobalNode) (g : Nat) : Option Nat :=
  match table with
  | [] => none
  | n :: rest => if n.gid = g then some 0 else (globalIndexOf rest g).map (· + 1)

/-- Modelled from the spec: the fatal integrity errors of the merge
(an unresolvable connectivity reference). -/
inductive IntegrityError where
  | danglingRef
deriving DecidableEq, Repr

/-- Modelled from the spec: remap one local node reference of partition `p`
through the global index table; a local node with no matching global
identifier is a fatal integrity error. -/
def remapNode (p : Partition) (table : List GlobalNode) (i : Nat) :
    Except IntegrityError Nat :=
  match p.nodes.get? i with
  | none => .error .danglingRef
  | some n =>
    match globalIndexOf table n.gid with
    | none => .error .danglingRef
    | some g => .ok g

/-- A fail-fast map over a list in the `Except` monad, written out
explicitly: the first error aborts the whole pass. -/
def exceptMap {ε α β : Type} (f : α → Except ε β) : List α → Except ε (List β)
  | [] => .ok []
  | a :: l =>
    match f a with
    | .error e => .error e
    | .ok b =>
      match exceptMap f l with
      | .error e => .error e
      | .ok bs => .ok (b :: bs)

/-- Modelled from the spec: `COutput::MergeConnectivity` for one element
type — every local element of that type, from every partition in rank
order, has each of its node references remapped through the merged node
table; an unresolvable reference aborts the merge. -/
def MergeConnectivity (parts : List Partition) (t : ElemType) :
    Except IntegrityError (List (List Nat)) :=
  exceptMap (fun pe => exceptMap (remapNode pe.1 (MergeCoordinates parts)) pe.2)
    (parts.flatMap (fun p => (p.conn t).map (fun e => (p, e))))

/-- All global identifiers reported by any node of any partition,
halo copies included. -/
def allGids (parts : List Partition) : List Nat :=
  parts.flatMap (fun p => p.nodes.map (fun n => n.gid))

/-- Total number of local nodes over all partitions, halos included. -/
def totalNodes (parts : List Partition) : Nat :=
  (parts.map (fun p => p.nodes.length)).sum

/-- Modelled from the spec: a partition set is valid (has consistent global
identifiers) when no two domain-owned nodes share a global identifier and
every halo copy's identifier is owned by some partition. -/
def consistentGids (parts : List Partition) : Prop :=
  ((ownedList parts).map (fun n => n.gid)).Nodup ∧
  ∀ p ∈ parts, ∀ n ∈ p.nodes, n.owned = false →
    n.gid ∈ (ownedList parts).map (fun n => n.gid)

instance (parts : List Partition) : Decidable (consistentGids parts) := by
  unfold consistentGids
  exact inferInstance

/-- Modelled from the spec: `COutput::MergeSolution` — for each partition's
domain-owned nodes, in rank order, the field tuple is copied into the slot
at that node's already-assigned global index; halo copies are ignored. -/
def MergeSolution (parts : List Partition) : List (List Int) :=
  let table := MergeCoordinates parts
  (ownedList parts).foldl
    (fun data n =>
      match globalIndexOf table n.gid with
      | some i => data.set i n.fields
      | none => data)
    (List.replicate table.length [])

/-- Modelled from the spec (and the field list of `output_structure.hpp`
lines 56-75): the merge-related state of a `COutput` object — the node
counts with and without halos, the per-type element counts and total
element count, the merged coordinates, the per-type merged connectivity,
and the merged solution data. -/
structure COutput where
  nGlobal_Poin : Nat
  nGlobal_Doma : Nat
  nGlobal_Elem : Nat
  nGlobal_Line : Nat
  nGlobal_Tria : Nat
  nGlobal_Quad : Nat
  nGlobal_Tetr : Nat
  nGlobal_Hexa : Nat
  nGlobal_Wedg : Nat
  nGlobal_Pyra : Nat
  Coords : List GlobalNode
  Conn_Line : List (List Nat)
  Conn_Tria : List (List Nat)
  Conn_Quad : List (List Nat)
  Conn_Tetr : List (List Nat)
  Conn_Hexa : List (List Nat)
  Conn_Wedg : List (List Nat)
  Conn_Pyra : List (List Nat)
  Data : List (List Int)
deriving DecidableEq, Repr

/-- Modelled from the spec: the constructor `COutput::COutput` — a freshly
constructed output object has all counts zero and all buffers empty. -/
def COutput.init : COutput :=
  ⟨0, 0, 0, 0, 0, 0, 0, 0, 0, 0, [], [], [], [], [], [], [], [], []⟩

/-- Modelled from the spec: `COutput::MergeGeometry` — merge the
coordinates, then the connectivity of every element type, recording the
node counts (with halos: every local copy counted; without halos: the
merged domain-owned nodes), the per-type element counts and their total. -/
def MergeGeometry (parts : List Partition) : Except IntegrityError COutput :=
  let table := MergeCoordinates parts
  match MergeConnectivity parts .line with
  | .error e => .error e
  | .ok line =>
  match MergeConnectivity parts .tria with
  | .error e => .error e
  | .ok tria =>
  match MergeConnectivity parts .quad with
  | .error e => .error e
  | .ok quad =>
  match MergeConnectivity parts .tetr with
  | .error e => .error e
  | .ok tetr =>
  match MergeConnectivity parts .hexa with
  | .error e => .error e
  | .ok hexa =>
  match MergeConnectivity parts .wedg with
  | .error e => .error e
  | .ok wedg =>
  match MergeConnectivity parts .pyra with
  | .error e => .error e
  | .ok pyra =>
  .ok { nGlobal_Poin := totalNodes parts
        nGlobal_Doma := table.length
        nGlobal_Elem := line.length + tria.length + quad.length + tetr.length
          + hexa.length + wedg.length + pyra.length
        nGlobal_Line := line.length
        nGlobal_Tria := tria.length
        nGlobal_Quad := quad.length
        nGlobal_Tetr := tetr.length
        nGlobal_Hexa := hexa.length
        nGlobal_Wedg := wedg.length
        nGlobal_Pyra := pyra.length
        Coords := table
        Conn_Line := line
        Conn_Tria := tria
        Conn_Quad := quad
        Conn_Tetr := tetr
        Conn_Hexa := hexa
        Conn_Wedg := wedg
        Conn_Pyra := pyra
        Data := [] }

/-- Modelled from the spec: the full merge for one output request —
`MergeGeometry` followed by `MergeSolution` filling the `Data` buffer. -/
def MergeAll (parts : List Partition) : Except IntegrityError COutput :=
  (MergeGeometry parts).map (fun st => { st with Data := MergeSolution parts })

/-- Modelled from the spec: `COutput::CleanUp` — deallocate every merge
buffer and reset every counter; no merged data survives the request. -/
def CleanUp (st : COutput) : COutput :=
  { st with
    nGlobal_Poin := 0
    nGlobal_Doma := 0
    nGlobal_Elem := 0
    nGlobal_Line := 0
    nGlobal_Tria := 0
    nGlobal_Quad := 0
    nGlobal_Tetr := 0
    nGlobal_Hexa := 0
    nGlobal_Wedg := 0
    nGlobal_Pyra := 0
    Coords := []
    Conn_Line := []
    Conn_Tria := []
    Conn_Quad := []
    Conn_Tetr := []
    Conn_Hexa := []
    Conn_Wedg := []
    Conn_Pyra := []
    Data := [] }

/-- Modelled from the spec: the output formats the dispatcher can be asked
for (native restart, volume visualization, surface extract). -/
inductive Format where
  | restart | volumeViz | surfaceExtract
deriving DecidableEq, Repr

/-- Modelled from the spec: the dispatcher invokes every requested format's
writer independently and reports a per-format status; a writer returning
`none` has failed, `some out` is its fully written output. -/
def dispatch {Out : Type} (formats : List Format) (writer : Format → Option Out) :
    List (Format × Option Out) :=
  formats.map (fun f => (f, writer f))

/-- Modelled from the spec: `COutput::SetResult_Files` — merge the current
partition state, hand the merged buffers to every requested writer, and
release all merge buffers afterwards; a failed merge discards partial
state and writes nothing. -/
def SetResult_Files {Out : Type} (st : COutput) (parts : List Partition)
    (formats : List Format) (writer : Format → COutput → Option Out) :
    List (Format × Option Out) × COutput :=
  match MergeAll parts with
  | .error _ => ([], CleanUp st)
  | .ok merged => (dispatch formats (fun f => writer f merged), CleanUp merged)

/-- Helper for `WriteRestart`: emit one line per global node, carrying the
running global node index and the node's field tuple. -/
def writeRestartAux : List (List Int) → Nat → List (Nat × List Int)
  | [], _ => []
  | v :: rest, i => (i, v) :: writeRestartAux rest (i + 1)

/-- Modelled from the spec: `COutput::WriteRestart` — the native restart
representation of a merged solution: one record per global node, in global
index order, holding the node's index and its field values. -/
def WriteRestart (sol : List (List Int)) : List (Nat × List Int) :=
  writeRestartAux sol 0

/-- Modelled from the spec: reading a native restart representation back
recovers the field values in global index order. -/
def ReadRestart (lines : List (Nat × List Int)) : List (List Int) :=
  lines.map Prod.snd

/-- Modelled from the spec: one convergence-history record — iteration
index, elapsed time, and the ordered named scalar values. -/
structure HistoryRecord where
  iter : Nat
  elapsed : Nat
  values : List (String × Int)
deriving DecidableEq, Repr

/-- Modelled from the spec: the `HistoryConflictError` raised on a
re-append of changed values for an already-recorded iteration. -/
inductive HistoryError where
  | conflict
deriving DecidableEq, Repr

/-- Look up the record for an iteration index in the history log. -/
def historyLookup : List HistoryRecord → Nat → Option HistoryRecord
  | [], _ => none
  | e :: rest, i => if e.iter = i then some e else historyLookup rest i

/-- Modelled from the spec: `HistoryRecorder.append` (the history side of
`COutput::SetHistory_MainIter`) — a new iteration is appended at the end
of the log; re-appending an already-recorded iteration is a no-op when the
values are identical and surfaces a `HistoryConflictError` otherwise,
leaving the log unchanged. -/
def historyAppend (log : List HistoryRecord) (r : HistoryRecord) :
    List HistoryRecord × Option HistoryError :=
  match historyLookup log r.iter with
  | some e => if e.values = r.values then (log, none) else (log, some .conflict)
  | none => (log ++ [r], none)

/-- Modelled from the spec: `HistoryRecorder.render` — a pure projection of
the record sequence, in insertion order. -/
def historyRender (log : List HistoryRecord) : List (Nat × Nat × List (String × Int)) :=
  log.map (fun e => (e.iter, e.elapsed, e.values))

/-- Modelled from the spec: the gather step — the aggregation point
receives (rank, partition) messages in arbitrary arrival order and
reassembles the partition array by rank; a missing rank means the gather
never completes. -/
def gatherByRank (arrivals : List (Nat × Partition)) (nRanks : Nat) :
    Option (List Partition) :=
  (List.range nRanks).mapM
    (fun r => ((arrivals.filter (fun a => a.1 = r)).map (fun a => a.2)).head?)

/-- Modelled from the spec: the merged node table produced from a given
arrival order of the gather. -/
def mergeFromArrivals (arrivals : List (Nat × Partition)) (nRanks : Nat) :
    Option (List GlobalNode) :=
  (gatherByRank arrivals nRanks).map MergeCoordinates

/-- Modelled from the spec: every element of every partition has the arity
fixed by its type. -/
def validElems (parts : List Partition) : Prop :=
  ∀ p ∈ parts,
    (∀ e ∈ p.connLine, e.length = 2) ∧
    (∀ e ∈ p.connTria, e.length = 3) ∧
    (∀ e ∈ p.connQuad, e.length = 4) ∧
    (∀ e ∈ p.connTetr, e.length = 4) ∧
    (∀ e ∈ p.connHexa, e.length = 8) ∧
    (∀ e ∈ p.connWedg, e.length = 6) ∧
    (∀ e ∈ p.connPyra, e.length = 5)

instance (parts : List Partition) : Decidable (validElems parts) := by
  unfold validElems
  exact inferInstance

/-- Example partition 0 of the spec: owns global nodes 0, 1, 2. -/
def exP0 : Partition :=
  { nodes := [⟨0, true, [0, 0], [10]⟩, ⟨1, true, [1, 0], [11]⟩, ⟨2, true, [2, 0], [12]⟩]
    connLine := [[0, 1]]
    connTria := [[0, 1, 2]]
    connQuad := []
    connTetr := []
    connHexa := []
    connWedg := []
    connPyra := [] }

/-- Example partition 1 of the spec: owns global nodes 3, 4 and holds a
halo copy of node 2 reporting a deliberately different field value. -/
def exP1 : Partition :=
  { nodes := [⟨3, true, [3, 0], [13]⟩, ⟨4, true, [4, 0], [14]⟩, ⟨2, false, [2, 0], [99]⟩]
    connLine := []
    connTria := [[0, 1, 2]]
    connQuad := []
    connTetr := []
    connHexa := []
    connWedg := []
    connPyra := [] }

/-- The spec's worked example partition set: two partitions, five distinct
global nodes, one halo copy. -/
def exParts : List Partition := [exP0, exP1]

/-- An example writer table: the restart writer fails, every other writer
succeeds with output `7`. -/
def exWriter : Format → Option Nat
  | .restart => none
  | _ => some 7

/-- The merged state produced by `MergeGeometry` on the example partition
set. -/
def exMerged : COutput :=
  { nGlobal_Poin := 6
    nGlobal_Doma := 5
    nGlobal_Elem := 3
    nGlobal_Line := 1
    nGlobal_Tria := 2
    nGlobal_Quad := 0
    nGlobal_Tetr := 0
    nGlobal_Hexa := 0
    nGlobal_Wedg := 0
    nGlobal_Pyra := 0
    Coords := [⟨0, [0, 0], 0, 0⟩, ⟨1, [1, 0], 0, 1⟩, ⟨2, [2, 0], 0, 2⟩,
               ⟨3, [3, 0], 1, 0⟩, ⟨4, [4, 0], 1, 1⟩]
    Conn_Line := [[0, 1]]
    Conn_Tria := [[0, 1, 2], [3, 4, 2]]
    Conn_Quad := []
    Conn_Tetr := []
    Conn_Hexa := []
    Conn_Wedg := []
    Conn_Pyra := []
    Data := [] }

/-! ### Helper lemmas -/

theorem ownedGlobals_map_gid (l : List LocalNode) (r j : Nat) :
    (ownedGlobals l r j).map (fun g => g.gid)
      = (l.filter (fun n => n.owned)).map (fun n => n.gid) := by
  induction l generalizing j with
  | nil => simp [ownedGlobals]
  | cons n rest ih =>
    cases hown : n.owned <;> simp [ownedGlobals, hown, List.filter_cons, ih]

theorem mergeCoordinatesAux_map_gid (ps : List Partition) (r : Nat) :
    (mergeCoordinatesAux ps r).map (fun g => g.gid)
      = (ownedList ps).map (fun n => n.gid) := by
  induction ps generalizing r with
  | nil => simp [mergeCoordinatesAux, ownedList]
  | cons p rest ih =>
    have h := ih (r + 1)
    simp only [ownedList] at h
    simp [mergeCoordinatesAux, ownedList, ownedGlobals_map_gid, h]

theorem MergeCoordinates_map_gid (parts : List Partition) :
    (MergeCoordinates parts).map (fun g => g.gid)
      = (ownedList parts).map (fun n => n.gid) :=
  mergeCoordinatesAux_map_gid parts 0

theorem MergeCoordinates_length (parts : List Partition) :
    (MergeCoordinates parts).length = (ownedList parts).length := by
  have h := congrArg List.length (MergeCoordinates_map_gid parts)
  simpa using h

theorem globalIndexOf_lt (table : List GlobalNode) (g : Nat) (i : Nat)
    (h : globalIndexOf table g = some i) : i < table.length := by
  induction table generalizing i with
  | nil => simp [globalIndexOf] at h
  | cons a rest ih =>
    simp only [globalIndexOf] at h
    split at h
    · simp only [Option.some.injEq] at h
      simp only [List.length_cons]
      omega
    · rw [Option.map_eq_some'] at h
      obtain ⟨j, hj, hji⟩ := h
      have := ih j hj
      simp only [List.length_cons]
      omega

theorem globalIndexOf_isSome_of_mem (table : List GlobalNode) (g : Nat)
    (h : g ∈ table.map (fun n => n.gid)) : ∃ i, globalIndexOf table g = some i := by
  induction table with
  | nil => simp at h
  | cons a rest ih =>
    by_cases hg : a.gid = g
    · exact ⟨0, by simp [globalIndexOf, hg]⟩
    · have h' : g ∈ rest.map (fun n => n.gid) := by
        simp only [List.map_cons, List.mem_cons] at h
        rcases h with h | h
        · exact absurd h.symm hg
        · exact h
      obtain ⟨i, hi⟩ := ih h'
      exact ⟨i + 1, by simp [globalIndexOf, hg, hi]⟩

theorem globalIndexOf_getElem (table : List GlobalNode)
    (hnd : (table.map (fun n => n.gid)).Nodup) :
    ∀ k (hk : k < table.length), globalIndexOf table table[k].gid = some k := by
  induction table with
  | nil => intro k hk; simp at hk
  | cons a rest ih =>
    intro k hk
    cases k with
    | zero => simp [globalIndexOf]
    | succ k =>
      have hk' : k < rest.length := by simpa using hk
      simp only [List.map_cons, List.nodup_cons] at hnd
      have hmem : rest[k].gid ∈ rest.map (fun n => n.gid) :=
        List.mem_map_of_mem _ (List.getElem_mem hk')
      have hne : a.gid ≠ rest[k].gid := fun h => hnd.1 (h ▸ hmem)
      simp [globalIndexOf, List.getElem_cons_succ, hne, ih hnd.2 k hk']

theorem mem_ownedList (parts : List Partition) (n : LocalNode) :
    n ∈ ownedList parts ↔ ∃ p ∈ parts, n ∈ p.nodes ∧ n.owned = true := by
  simp [ownedList, List.mem_flatMap, List.mem_filter]

theorem mem_allGids (parts : List Partition) (g : Nat) :
    g ∈ allGids parts ↔ ∃ p ∈ parts, ∃ n ∈ p.nodes, n.gid = g := by
  simp [allGids, List.mem_flatMap, List.mem_map]

theorem exceptMap_ok_mem {ε α β : Type} (f : α → Except ε β) (l : List α)
    (l' : List β) (h : exceptMap f l = .ok l') :
    ∀ b ∈ l', ∃ a ∈ l, f a = .ok b := by
  induction l generalizing l' with
  | nil =>
    simp [exceptMap] at h
    subst h
    simp
  | cons a rest ih =>
    intro b hb
    simp only [exceptMap] at h
    cases hfa : f a with
    | error e => rw [hfa] at h; exact absurd h (by simp)
    | ok b0 =>
      rw [hfa] at h
      cases hrest : exceptMap f rest with
      | error e => rw [hrest] at h; exact absurd h (by simp)
      | ok bs =>
        rw [hrest] at h
        simp only [Except.ok.injEq] at h
        subst h
        rcases List.mem_cons.mp hb with rfl | hb'
        · exact ⟨a, by simp, hfa⟩
        · obtain ⟨a', ha', hfa'⟩ := ih bs hrest b hb'
          exact ⟨a', by simp [ha'], hfa'⟩

theorem exceptMap_ok_length {ε α β : Type} (f : α → Except ε β) (l : List α)
    (l' : List β) (h : exceptMap f l = .ok l') : l'.length = l.length := by
  induction l generalizing l' with
  | nil => simp [exceptMap] at h; subst h; rfl
  | cons a rest ih =>
    simp only [exceptMap] at h
    cases hfa : f a with
    | error e => rw [hfa] at h; exact absurd h (by simp)
    | ok b0 =>
      rw [hfa] at h
      cases hrest : exceptMap f rest with
      | error e => rw [hrest] at h; exact absurd h (by simp)
      | ok bs =>
        rw [hrest] at h
        simp only [Except.ok.injEq] at h
        subst h
        simp [ih bs hrest]

theorem remapNode_ok_lt (p : Partition) (table : List GlobalNode) (i g : Nat)
    (h : remapNode p table i = .ok g) : g < table.length := by
  unfold remapNode at h
  split at h
  · exact absurd h (by simp)
  · split at h
    · exact absurd h (by simp)
    · rename_i j hg
      simp only [Except.ok.injEq] at h
      subst h
      exact globalIndexOf_lt _ _ _ hg

theorem take_set_succ {β : Type} (init : List β) (off : Nat) (v : β)
    (h : off < init.length) :
    (init.set off v).take (off + 1) = init.take off ++ [v] := by
  induction init generalizing off with
  | nil => simp at h
  | cons a t ih =>
    cases off with
    | zero => simp
    | succ o =>
      have h' : o < t.length := by simpa using h
      simp [List.set_cons_succ, List.take_succ_cons, ih o h']

theorem foldl_set_fields (table : List GlobalNode) (l : List LocalNode)
    (init : List (List Int)) (off : Nat)
    (h : ∀ k (hk : k < l.length), globalIndexOf table l[k].gid = some (off + k))
    (hlen : init.length = off + l.length) :
    l.foldl
      (fun data n =>
        match globalIndexOf table n.gid with
        | some i => data.set i n.fields
        | none => data)
      init
    = init.take off ++ l.map (fun n => n.fields) := by
  induction l generalizing init off with
  | nil =>
    simp only [List.length_nil, Nat.add_zero] at hlen
    simp only [List.foldl_nil, List.map_nil, List.append_nil]
    exact (List.take_of_length_le (le_of_eq hlen)).symm
  | cons n rest ih =>
    have h0 : globalIndexOf table n.gid = some off := by
      have := h 0 (by simp)
      simpa using this
    simp only [List.foldl_cons, h0]
    have hofflt : off < init.length := by
      simp only [List.length_cons] at hlen
      omega
    have hrec := ih (init.set off n.fields) (off + 1)
      (fun k hk => by
        have hkk := h (k + 1) (by simp only [List.length_cons]; omega)
        rw [List.getElem_cons_succ] at hkk
        rw [show off + 1 + k = off + (k + 1) by omega]
        exact hkk)
      (by simp only [List.length_set, List.length_cons] at hlen ⊢; omega)
    rw [hrec, take_set_succ init off n.fields hofflt]
    simp

theorem MergeSolution_eq_map (parts : List Partition)
    (hnd : ((ownedList parts).map (fun n => n.gid)).Nodup) :
    MergeSolution parts = (ownedList parts).map (fun n => n.fields) := by
  have hmap := MergeCoordinates_map_gid parts
  have hlen := MergeCoordinates_length parts
  have htnd : ((MergeCoordinates parts).map (fun n => n.gid)).Nodup := by
    rw [hmap]; exact hnd
  have hidx : ∀ k (hk : k < (ownedList parts).length),
      globalIndexOf (MergeCoordinates parts) (ownedList parts)[k].gid = some (0 + k) := by
    intro k hk
    have hk' : k < (MergeCoordinates parts).length := by omega
    have hg : (MergeCoordinates parts)[k].gid = (ownedList parts)[k].gid := by
      have h1 := congrArg (fun l => l[k]?) hmap
      simpa [List.getElem?_map, List.getElem?_eq_getElem, hk, hk'] using h1
    rw [← hg, Nat.zero_add]
    exact globalIndexOf_getElem (MergeCoordinates parts) htnd k hk'
  have := foldl_set_fields (MergeCoordinates parts) (ownedList parts)
    (List.replicate (MergeCoordinates parts).length []) 0 hidx (by simp [hlen])
  simpa [MergeSolution] using this

theorem filter_fst_length_le_one {α : Type} (l : List (Nat × α))
    (hnd : (l.map Prod.fst).Nodup) (r : Nat) :
    (l.filter (fun a => a.1 = r)).length ≤ 1 := by
  induction l with
  | nil => simp
  | cons a t ih =>
    simp only [List.map_cons, List.nodup_cons] at hnd
    by_cases ha : a.1 = r
    · have hemp : t.filter (fun x => x.1 = r) = [] := by
        rw [List.filter_eq_nil_iff]
        intro x hx hxr
        have hmem : x.1 ∈ t.map Prod.fst := List.mem_map_of_mem _ hx
        simp only [decide_eq_true_eq] at hxr
        have hax : a.1 ∈ List.map Prod.fst t := by rw [ha, ← hxr]; exact hmem
        exact hnd.1 hax
      simp [List.filter_cons, ha, hemp]
    · simpa [List.filter_cons, ha] using ih hnd.2

theorem perm_eq_of_length_le_one {α : Type} (l l' : List α)
    (hp : l.Perm l') (hlen : l.length ≤ 1) : l = l' := by
  match l, hlen with
  | [], _ => exact (List.perm_nil.mp hp.symm).symm
  | [a], _ => exact (List.perm_singleton.mp hp.symm).symm

theorem gatherByRank_perm (arr arr' : List (Nat × Partition)) (n : Nat)
    (hperm : arr.Perm arr') (hnd : (arr.map Prod.fst).Nodup) :
    gatherByRank arr n = gatherByRank arr' n := by
  have hfilter : ∀ r, arr.filter (fun a => a.1 = r) = arr'.filter (fun a => a.1 = r) := by
    intro r
    exact perm_eq_of_length_le_one _ _ (hperm.filter _) (filter_fst_length_le_one arr hnd r)
  unfold gatherByRank
  have : (fun r => ((arr.filter (fun a => a.1 = r)).map (fun a => a.2)).head?)
       = (fun r => ((arr'.filter (fun a => a.1 = r)).map (fun a => a.2)).head?) := by
    funext r
    rw [hfilter r]
  rw [this]

theorem MergeGeometry_ok_fields (parts : List Partition) (st : COutput)
    (h : MergeGeometry parts = .ok st) :
    st.nGlobal_Poin = totalNodes parts ∧
    st.nGlobal_Doma = (MergeCoordinates parts).length ∧
    st.nGlobal_Elem = st.nGlobal_Line + st.nGlobal_Tria + st.nGlobal_Quad +
      st.nGlobal_Tetr + st.nGlobal_Hexa + st.nGlobal_Wedg + st.nGlobal_Pyra ∧
    MergeConnectivity parts .line = .ok st.Conn_Line ∧
    MergeConnectivity parts .tria = .ok st.Conn_Tria ∧
    MergeConnectivity parts .quad = .ok st.Conn_Quad ∧
    MergeConnectivity parts .tetr = .ok st.Conn_Tetr ∧
    MergeConnectivity parts .hexa = .ok st.Conn_Hexa ∧
    MergeConnectivity parts .wedg = .ok st.Conn_Wedg ∧
    MergeConnectivity parts .pyra = .ok st.Conn_Pyra ∧
    st.nGlobal_Line = st.Conn_Line.length ∧
    st.nGlobal_Tria = st.Conn_Tria.length ∧
    st.nGlobal_Quad = st.Conn_Quad.length ∧
    st.nGlobal_Tetr = st.Conn_Tetr.length ∧
    st.nGlobal_Hexa = st.Conn_Hexa.length ∧
    st.nGlobal_Wedg = st.Conn_Wedg.length ∧
    st.nGlobal_Pyra = st.Conn_Pyra.length := by
  unfold MergeGeometry at h
  repeat' split at h
  all_goals first
    | exact Except.noConfusion h
    | (simp only [Except.ok.injEq] at h
       subst h
       exact ⟨rfl, rfl, rfl, by assumption, by assumption, by assumption, by assumption,
         by assumption, by assumption, by assumption, rfl, rfl, rfl, rfl, rfl, rfl, rfl⟩)

theorem ownedList_length_le (parts : List Partition) :
    (ownedList parts).length ≤ totalNodes parts := by
  induction parts with
  | nil => simp [ownedList, totalNodes]
  | cons p rest ih =>
    simp only [ownedList, totalNodes, List.flatMap_cons, List.length_append,
      List.map_cons, List.sum_cons]
    have h1 : (p.nodes.filter (fun n => n.owned)).length ≤ p.nodes.length :=
      List.length_filter_le _ _
    simp only [ownedList, totalNodes] at ih
    omega

theorem validElems_conn (parts : List Partition) (h : validElems parts)
    (p : Partition) (hp : p ∈ parts) (t : ElemType) :
    ∀ e ∈ p.conn t, e.length = t.nNodes := by
  have hh := h p hp
  cases t with
  | line => exact hh.1
  | tria => exact hh.2.1
  | quad => exact hh.2.2.1
  | tetr => exact hh.2.2.2.1
  | hexa => exact hh.2.2.2.2.1
  | wedg => exact hh.2.2.2.2.2.1
  | pyra => exact hh.2.2.2.2.2.2

theorem mem_connPairs (parts : List Partition) (t : ElemType)
    (a : Partition × List Nat)
    (ha : a ∈ parts.flatMap (fun p => (p.conn t).map (fun e => (p, e)))) :
    a.1 ∈ parts ∧ a.2 ∈ a.1.conn t := by
  simp only [List.mem_flatMap, List.mem_map] at ha
  obtain ⟨p, hp, e, he, rfl⟩ := ha
  exact ⟨hp, he⟩

theorem writeRestartAux_map_snd (sol : List (List Int)) (i : Nat) :
    (writeRestartAux sol i).map Prod.snd = sol := by
  induction sol generalizing i with
  | nil => simp [writeRestartAux]
  | cons v rest ih => simp [writeRestartAux, ih]

theorem writeRestartAux_map_fst (sol : List (List Int)) (i : Nat) :
    (writeRestartAux sol i).map Prod.fst = List.range' i sol.length := by
  induction sol generalizing i with
  | nil => simp [writeRestartAux]
  | cons v rest ih => simp [writeRestartAux, List.range'_succ, ih]

/-! ### Claim theorems -/

/-- Claim C3: writing a merged solution with the native restart writer and
reading it back yields, at every global node, field values exactly equal
to the original, and the written per-record identifiers are exactly the
global node indices in order. -/
theorem WriteRestart_roundtrip (sol : List (List Int)) :
    ReadRestart (WriteRestart sol) = sol ∧
    (WriteRestart sol).map Prod.fst = List.range sol.length := by
  constructor
  · exact writeRestartAux_map_snd sol 0
  · rw [List.range_eq_range']
    exact writeRestartAux_map_fst sol 0

/-- Claim C7: after an output request completes, the dispatcher's state has
every merge buffer released (equal to the freshly constructed state), and
the request's report depends only on the current partition state, not on
any state left by a previous request. -/
theorem SetResult_Files_releases_buffers {Out : Type} (st st' : COutput)
    (parts : List Partition) (formats : List Format)
    (writer : Format → COutput → Option Out) :
    (SetResult_Files st parts formats writer).2 = COutput.init ∧
    (SetResult_Files st parts formats writer).1
      = (SetResult_Files st' parts formats writer).1 := by
  unfold SetResult_Files
  constructor
  · split <;> rfl
  · split <;> rfl

/-- Claim C8: the connectivity merge writes, per element, exactly the
number of global node indices fixed by its element type — line 2,
triangle 3, quadrilateral 4, tetrahedron 4, hexahedron 8, wedge 6,
pyramid 5. -/
theorem MergeConnectivity_arity (parts : List Partition) (hv : validElems parts) :
    ∀ t conn, MergeConnectivity parts t = .ok conn →
      ∀ e ∈ conn, e.length = t.nNodes := by
  intro t conn hconn e he
  unfold MergeConnectivity at hconn
  obtain ⟨pe, hpe, hok⟩ := exceptMap_ok_mem _ _ _ hconn e he
  have hlen := exceptMap_ok_length _ _ _ hok
  obtain ⟨hp, hmem⟩ := mem_connPairs parts t pe hpe
  rw [hlen]
  exact validElems_conn parts hv pe.1 hp t pe.2 hmem

/-- Witness for C8 at the example partition set. -/
theorem MergeConnectivity_arity_witness :
    validElems exParts ∧
    (∀ t conn, MergeConnectivity exParts t = .ok conn →
      ∀ e ∈ conn, e.length = t.nNodes) :=
  ⟨by decide, MergeConnectivity_arity exParts (by decide)⟩

/-- Claim C9: after a successful geometry merge the number of domain-owned
global nodes is at most the total node count including halos, and a
freshly constructed output object has both counts zero. -/
theorem nGlobal_Doma_le_nGlobal_Poin (parts : List Partition) (st : COutput)
    (h : MergeGeometry parts = .ok st) :
    st.nGlobal_Doma ≤ st.nGlobal_Poin ∧
    COutput.init.nGlobal_Poin = 0 ∧ COutput.init.nGlobal_Doma = 0 := by
  obtain ⟨hpoin, hdoma, _⟩ := MergeGeometry_ok_fields parts st h
  refine ⟨?_, rfl, rfl⟩
  rw [hpoin, hdoma, MergeCoordinates_length]
  exact ownedList_length_le parts

/-- Witness for C9 at the example partition set. -/
theorem nGlobal_Doma_le_nGlobal_Poin_witness :
    MergeGeometry exParts = .ok exMerged ∧
    (exMerged.nGlobal_Doma ≤ exMerged.nGlobal_Poin ∧
     COutput.init.nGlobal_Poin = 0 ∧ COutput.init.nGlobal_Doma = 0) :=
  ⟨rfl, nGlobal_Doma_le_nGlobal_Poin exParts exMerged rfl⟩

/-- Claim C10: after connectivity merging completes for all element types,
the total global element count equals the sum of the per-type counts. -/
theorem nGlobal_Elem_sum (parts : List Partition) (st : COutput)
    (h : MergeGeometry parts = .ok st) :
    st.nGlobal_Elem = st.nGlobal_Line + st.nGlobal_Tria + st.nGlobal_Quad +
      st.nGlobal_Tetr + st.nGlobal_Hexa + st.nGlobal_Wedg + st.nGlobal_Pyra :=
  (MergeGeometry_ok_fields parts st h).2.2.1

/-- Witness for C10 at the example partition set. -/
theorem nGlobal_Elem_sum_witness :
    MergeGeometry exParts = .ok exMerged ∧
    exMerged.nGlobal_Elem = exMerged.nGlobal_Line + exMerged.nGlobal_Tria +
      exMerged.nGlobal_Quad + exMerged.nGlobal_Tetr + exMerged.nGlobal_Hexa +
      exMerged.nGlobal_Wedg + exMerged.nGlobal_Pyra :=
  ⟨rfl, nGlobal_Elem_sum exParts exMerged rfl⟩

/-- Claim C6: the dispatcher reports a per-format status, each requested
format's entry depends only on that format's own writer, and in
particular requesting two formats where the first writer fails and the
second succeeds yields the report [(A, failed), (B, succeeded)]. -/
theorem Dispatch_per_format_isolation {Out : Type} (formats : List Format)
    (w : Format → Option Out) (i : Nat) (f : Format)
    (hf : formats[i]? = some f) :
    (dispatch formats w)[i]? = some (f, w f) ∧
    (∀ w' : Format → Option Out, w' f = w f →
        (dispatch formats w')[i]? = some (f, w f)) ∧
    (∀ (A B : Format) (wr : Format → Option Out) (out : Out),
        wr A = none → wr B = some out →
        dispatch [A, B] wr = [(A, none), (B, some out)]) := by
  refine ⟨?_, ?_, ?_⟩
  · simp [dispatch, List.getElem?_map, hf]
  · intro w' hw
    simp [dispatch, List.getElem?_map, hf, hw]
  · intro A B wr out hA hB
    simp [dispatch, hA, hB]

/-- Witness for C6: formats {restart, volumeViz} with a writer that fails
on restart and succeeds on volumeViz. -/
theorem Dispatch_per_format_isolation_witness :
    ([Format.restart, Format.volumeViz][1]? = some Format.volumeViz) ∧
    ((dispatch [Format.restart, Format.volumeViz] exWriter)[1]?
        = some (Format.volumeViz, exWriter Format.volumeViz) ∧
     (∀ w' : Format → Option Nat, w' Format.volumeViz = exWriter Format.volumeViz →
        (dispatch [Format.restart, Format.volumeViz] w')[1]?
          = some (Format.volumeViz, exWriter Format.volumeViz)) ∧
     (∀ (A B : Format) (wr : Format → Option Nat) (out : Nat),
        wr A = none → wr B = some out →
        dispatch [A, B] wr = [(A, none), (B, some out)])) :=
  ⟨rfl, Dispatch_per_format_isolation [Format.restart, Format.volumeViz]
    exWriter 1 Format.volumeViz rfl⟩

/-- Claim C1: for every valid partition set with consistent global
identifiers the geometry merge produces exactly one global node per
distinct global identifier — the merged identifiers are duplicate-free
and cover exactly the identifiers reported by any partition, so halo
duplicates collapse to the owner's node and never create a new one — and
every merged element's node references resolve to an index within the
produced global node set. -/
theorem MergeGeometry_node_integrity (parts : List Partition)
    (hv : consistentGids parts) :
    ((MergeCoordinates parts).map (fun n => n.gid)).Nodup ∧
    (∀ g, g ∈ (MergeCoordinates parts).map (fun n => n.gid) ↔ g ∈ allGids parts) ∧
    (∀ t conn, MergeConnectivity parts t = .ok conn →
      ∀ e ∈ conn, ∀ i ∈ e, i < (MergeCoordinates parts).length) := by
  obtain ⟨hnd, hhalo⟩ := hv
  refine ⟨?_, ?_, ?_⟩
  · rw [MergeCoordinates_map_gid]
    exact hnd
  · intro g
    rw [MergeCoordinates_map_gid]
    constructor
    · intro hg
      rw [List.mem_map] at hg
      obtain ⟨n, hn, rfl⟩ := hg
      rw [mem_ownedList] at hn
      obtain ⟨p, hp, hnp, _⟩ := hn
      exact (mem_allGids parts n.gid).mpr ⟨p, hp, n, hnp, rfl⟩
    · intro hg
      rw [mem_allGids] at hg
      obtain ⟨p, hp, n, hn, rfl⟩ := hg
      cases hown : n.owned with
      | true =>
        exact List.mem_map_of_mem _ ((mem_ownedList parts n).mpr ⟨p, hp, hn, hown⟩)
      | false =>
        exact hhalo p hp n hn hown
  · intro t conn hconn e he i hi
    unfold MergeConnectivity at hconn
    obtain ⟨pe, hpe, hok⟩ := exceptMap_ok_mem _ _ _ hconn e he
    obtain ⟨a, ha, hra⟩ := exceptMap_ok_mem _ _ _ hok i hi
    exact remapNode_ok_lt _ _ _ _ hra

/-- Witness for C1 at the spec's worked example: five distinct global
nodes, one halo copy, no dangling connectivity index. -/
theorem MergeGeometry_node_integrity_witness :
    consistentGids exParts ∧
    (((MergeCoordinates exParts).map (fun n => n.gid)).Nodup ∧
     (∀ g, g ∈ (MergeCoordinates exParts).map (fun n => n.gid) ↔ g ∈ allGids exParts) ∧
     (∀ t conn, MergeConnectivity exParts t = .ok conn →
       ∀ e ∈ conn, ∀ i ∈ e, i < (MergeCoordinates exParts).length)) :=
  ⟨by decide, MergeGeometry_node_integrity exParts (by decide)⟩

/-- Claim C2: global numbering is deterministic — for two arrival orders
of the same (rank, partition) messages at the gather, the reassembled
partition array, the merged node table, and the global index assigned to
every identifier are identical, because domain-owned nodes are numbered
in the stable (owning-partition rank, local index) order. -/
theorem Merge_numbering_deterministic (arr arr' : List (Nat × Partition))
    (n : Nat) (hperm : arr.Perm arr') (hnd : (arr.map Prod.fst).Nodup) :
    gatherByRank arr n = gatherByRank arr' n ∧
    mergeFromArrivals arr n = mergeFromArrivals arr' n ∧
    ∀ g, (mergeFromArrivals arr n).map (fun table => globalIndexOf table g)
       = (mergeFromArrivals arr' n).map (fun table => globalIndexOf table g) := by
  have hg := gatherByRank_perm arr arr' n hperm hnd
  refine ⟨hg, ?_, ?_⟩
  · unfold mergeFromArrivals
    rw [hg]
  · intro g
    unfold mergeFromArrivals
    rw [hg]

/-- Witness for C2: the two partitions of the worked example arriving in
the two possible orders produce identical global numbering. -/
theorem Merge_numbering_deterministic_witness :
    ([((0 : Nat), exP0), (1, exP1)].Perm [(1, exP1), (0, exP0)]) ∧
    (([((0 : Nat), exP0), (1, exP1)].map Prod.fst).Nodup) ∧
    (gatherByRank [((0 : Nat), exP0), (1, exP1)] 2
        = gatherByRank [(1, exP1), (0, exP0)] 2 ∧
     mergeFromArrivals [((0 : Nat), exP0), (1, exP1)] 2
        = mergeFromArrivals [(1, exP1), (0, exP0)] 2 ∧
     ∀ g, (mergeFromArrivals [((0 : Nat), exP0), (1, exP1)] 2).map
            (fun table => globalIndexOf table g)
        = (mergeFromArrivals [(1, exP1), (0, exP0)] 2).map
            (fun table => globalIndexOf table g)) :=
  ⟨List.Perm.swap (1, exP1) (0, exP0) [], by decide,
   Merge_numbering_deterministic [((0 : Nat), exP0), (1, exP1)]
     [(1, exP1), (0, exP0)] 2 (List.Perm.swap (1, exP1) (0, exP0) []) (by decide)⟩

/-- Claim C4: the solution merge takes only the owning partition's value —
if the owner reports field tuple V for a node and some other partition
holds a halo copy of the same identifier with a different tuple V', the
merged solution at that node's global index equals V and never V'. -/
theorem MergeSolution_owner_authoritative (parts : List Partition)
    (hv : consistentGids parts)
    (p : Partition) (hp : p ∈ parts) (n : LocalNode) (hn : n ∈ p.nodes)
    (hown : n.owned = true)
    (q : Partition) (_hq : q ∈ parts) (m : LocalNode) (_hm : m ∈ q.nodes)
    (_hhalo : m.owned = false) (_hgid : m.gid = n.gid) (hdiff : m.fields ≠ n.fields) :
    ∃ k, globalIndexOf (MergeCoordinates parts) n.gid = some k ∧
      (MergeSolution parts)[k]? = some n.fields ∧
      (MergeSolution parts)[k]? ≠ some m.fields := by
  obtain ⟨hnd, _⟩ := hv
  have hmem : n ∈ ownedList parts := (mem_ownedList parts n).mpr ⟨p, hp, hn, hown⟩
  obtain ⟨j, hj, hget⟩ := List.mem_iff_getElem.mp hmem
  have hmap := MergeCoordinates_map_gid parts
  have hlen := MergeCoordinates_length parts
  have hj' : j < (MergeCoordinates parts).length := by omega
  have htnd : ((MergeCoordinates parts).map (fun x => x.gid)).Nodup := by
    rw [hmap]
    exact hnd
  have hgeq : (MergeCoordinates parts)[j].gid = n.gid := by
    have h1 := congrArg (fun l => l[j]?) hmap
    simp only [List.getElem?_map] at h1
    rw [List.getElem?_eq_getElem hj', List.getElem?_eq_getElem hj] at h1
    simp only [Option.map_some'] at h1
    rw [hget] at h1
    exact Option.some.inj h1
  refine ⟨j, ?_, ?_, ?_⟩
  · rw [← hgeq]
    exact globalIndexOf_getElem _ htnd j hj'
  · rw [MergeSolution_eq_map parts hnd, List.getElem?_map,
      List.getElem?_eq_getElem hj, hget]
    rfl
  · rw [MergeSolution_eq_map parts hnd, List.getElem?_map,
      List.getElem?_eq_getElem hj, hget]
    simp only [Option.map_some', ne_eq, Option.some.injEq]
    exact fun hc => hdiff (hc ▸ rfl)

/-- Witness for C4: the example's node 2 is owned by partition 0 with field
value [12]; partition 1's halo copy reports [99]; the merged value at
global index 2 is [12]. -/
theorem MergeSolution_owner_authoritative_witness :
    consistentGids exParts ∧
    exP0 ∈ exParts ∧
    (⟨2, true, [2, 0], [12]⟩ : LocalNode) ∈ exP0.nodes ∧
    exP1 ∈ exParts ∧
    (⟨2, false, [2, 0], [99]⟩ : LocalNode) ∈ exP1.nodes ∧
    ([99] : List Int) ≠ [12] ∧
    (∃ k, globalIndexOf (MergeCoordinates exParts) 2 = some k ∧
      (MergeSolution exParts)[k]? = some [12] ∧
      (MergeSolution exParts)[k]? ≠ some [99]) :=
  ⟨by decide, by decide, by decide, by decide, by decide, by decide,
   MergeSolution_owner_authoritative exParts (by decide)
     exP0 (by decide) ⟨2, true, [2, 0], [12]⟩ (by decide) rfl
     exP1 (by decide) ⟨2, false, [2, 0], [99]⟩ (by decide) rfl rfl (by decide)⟩

/-- Claim C5: appending an already-recorded iteration with identical values
is a no-op success; appending different values for an already-recorded
iteration surfaces a HistoryConflictError and leaves the original record
unchanged; the rendered output preserves the insertion order of the
records. -/
theorem History_append_contract (log : List HistoryRecord) (r e : HistoryRecord)
    (hfind : historyLookup log r.iter = some e) :
    (e.values = r.values → historyAppend log r = (log, none)) ∧
    (e.values ≠ r.values →
        historyAppend log r = (log, some HistoryError.conflict) ∧
        historyLookup (historyAppend log r).1 r.iter = some e) ∧
    (∀ k : Nat, (historyRender (historyAppend log r).1)[k]?
        = ((historyAppend log r).1[k]?).map
            (fun x : HistoryRecord => (x.iter, x.elapsed, x.values))) := by
  refine ⟨?_, ?_, ?_⟩
  · intro hval
    simp [historyAppend, hfind, hval]
  · intro hval
    constructor
    · simp [historyAppend, hfind, hval]
    · simp [historyAppend, hfind, hval]
  · intro k
    simp [historyRender, List.getElem?_map]

/-- Witness for C5: a log holding iteration 5, re-appended with a changed
value set. -/
theorem History_append_contract_witness :
    historyLookup [(⟨5, 100, [("res", 3)]⟩ : HistoryRecord)]
        (⟨5, 200, [("res", 4)]⟩ : HistoryRecord).iter
      = some ⟨5, 100, [("res", 3)]⟩ ∧
    (((⟨5, 100, [("res", 3)]⟩ : HistoryRecord).values
          = (⟨5, 200, [("res", 4)]⟩ : HistoryRecord).values →
        historyAppend [⟨5, 100, [("res", 3)]⟩] ⟨5, 200, [("res", 4)]⟩
          = ([⟨5, 100, [("res", 3)]⟩], none)) ∧
     ((⟨5, 100, [("res", 3)]⟩ : HistoryRecord).values
          ≠ (⟨5, 200, [("res", 4)]⟩ : HistoryRecord).values →
        historyAppend [⟨5, 100, [("res", 3)]⟩] ⟨5, 200, [("res", 4)]⟩
          = ([⟨5, 100, [("res", 3)]⟩], some HistoryError.conflict) ∧
        historyLookup (historyAppend [⟨5, 100, [("res", 3)]⟩]
            ⟨5, 200, [("res", 4)]⟩).1 (⟨5, 200, [("res", 4)]⟩ : HistoryRecord).iter
          = some ⟨5, 100, [("res", 3)]⟩) ∧
     (∀ k : Nat, (historyRender (historyAppend [⟨5, 100, [("res", 3)]⟩]
            ⟨5, 200, [("res", 4)]⟩).1)[k]?
        = ((historyAppend [⟨5, 100, [("res", 3)]⟩] ⟨5, 200, [("res", 4)]⟩).1[k]?).map
            (fun x : HistoryRecord => (x.iter, x.elapsed, x.values)))) :=
  ⟨rfl, History_append_contract [⟨5, 100, [("res", 3)]⟩] ⟨5, 200, [("res", 4)]⟩
    ⟨5, 100, [("res", 3)]⟩ rfl⟩

end SU2
